import Mathlib

/-!
# Verification of the `node-bridge` line-protocol codec and dispatcher

Shallow embedding of `src/node-bridge/src/lib.rs` (the Rust side of the
PureSci/node-rust-bridge package).  Strings are modelled as `List Char`;
Rust's `str::split_once`, `str::ends_with` and `str::replace` are embedded
as `splitOnce`, `endsWithL` and `eraseAll` below (every pattern the source
passes to these is a concrete nonempty delimiter string).  The dispatcher
task of `NodeBridge::new` is embedded as a step function over an explicit
state (`DState`); tokio oneshot/mpsc effects are recorded as an event list.
-/

namespace NodeBridge

/-! ## Definitions -/

/-- The characters of a string literal. -/
def str (s : String) : List Char := s.data

/-- `isPrefixL p s` : `p` is a prefix of `s` (Boolean). -/
def isPrefixL : List Char → List Char → Bool
  | [], _ => true
  | _ :: _, [] => false
  | a :: as, b :: bs => a == b && isPrefixL as bs

/-- `agree p l` : `p` and `l` coincide on their common length (Boolean). -/
def agree : List Char → List Char → Bool
  | _, [] => true
  | [], _ => true
  | a :: as, b :: bs => a == b && agree as bs

/-- `noCross p l` : no occurrence of `p` starts inside `l`
(for any continuation appended after `l`). -/
def noCross (p : List Char) : List Char → Bool
  | [] => true
  | c :: cs => !agree p (c :: cs) && noCross p cs

/-- Embedding of Rust `str::split_once` for a nonempty pattern: split at the
first occurrence of `pat`, returning the text before and after it; `none`
models the `None` that the source `.unwrap()`s. -/
def splitOnce (pat : List Char) : List Char → Option (List Char × List Char)
  | [] => none
  | c :: cs =>
    if isPrefixL pat (c :: cs) then some ([], (c :: cs).drop pat.length)
    else (splitOnce pat cs).map (fun x => (c :: x.1, x.2))

/-- Embedding of Rust `s.ends_with(pat)`. -/
def endsWithL (s pat : List Char) : Bool := isPrefixL pat.reverse s.reverse

/-- Embedding of Rust `s.replace(pat, "")` for a nonempty pattern: erase
every (leftmost, non-overlapping) occurrence of `pat`. -/
def eraseAll (pat : List Char) (s : List Char) : List Char :=
  match s with
  | [] => []
  | c :: cs =>
    if 0 < pat.length ∧ isPrefixL pat (c :: cs) = true then
      eraseAll pat (cs.drop (pat.length - 1))
    else
      c :: eraseAll pat cs
termination_by s.length
decreasing_by
  · simp only [List.length_cons, List.length_drop]
    omega
  · simp only [List.length_cons]
    omega

/-- Characters that never appear inside any protocol delimiter field. -/
def cleanChar (c : Char) : Bool := !(c == '[' || c == ']' || c == '_')

/-- All characters of `s` are clean (none of `[`, `]`, `_`). -/
def cleanL (s : List Char) : Bool := s.all cleanChar

/-- The first character of `p` exists and is not clean. -/
def headNotClean : List Char → Bool
  | [] => false
  | c :: _ => !cleanChar c

inductive Msg where
  | delivery (channel payload : List Char)
  | invoke (name id arg : List Char)
  | param (id value : List Char)
  | exitMsg
deriving DecidableEq

/-- Embedding of the record classification and field extraction of the
`UtilType::ReadLine(data)` arm of `NodeBridge::new` (lib.rs lines 97-198).
`.error ()` models a panicking `.unwrap()` of a `None` returned by
`split_once`; `.ok none` models the `_ => {}` fallthrough (record dropped).
The field extractions mirror the source exactly: `torust` re-splits the full
line, `function` drops the first two `_`-segments and then searches
`second_splitted` three times, `param` splits the tail at its first `_`. -/
def decode (data : List Char) : Except Unit (Option Msg) :=
  match splitOnce (str "_") data with
  | none => .error ()
  | some sp0 =>
    if sp0.1 = str "torust" then
      match splitOnce (str "torust__bridge_name[") data with
      | none => .error ()
      | some t1 =>
        match splitOnce (str "]_end_name") t1.2 with
        | none => .error ()
        | some nv => .ok (some (.delivery nv.1 nv.2))
    else if sp0.1 = str "function" then
      match splitOnce (str "_") sp0.2 with
      | none => .error ()
      | some sp1 =>
        match splitOnce (str "bridge_name[") sp1.2 with
        | none => .error ()
        | some n1 =>
          match splitOnce (str "]_end_name") n1.2 with
          | none => .error ()
          | some n2 =>
            match splitOnce (str "_bridge_id[") sp1.2 with
            | none => .error ()
            | some i1 =>
              match splitOnce (str "]_end_id") i1.2 with
              | none => .error ()
              | some i2 =>
                match splitOnce (str "_bridge_arg[") sp1.2 with
                | none => .error ()
                | some a1 =>
                  match splitOnce (str "]_end_arg") a1.2 with
                  | none => .error ()
                  | some a2 => .ok (some (.invoke n2.1 i2.1 a2.1))
    else if sp0.1 = str "param" then
      match splitOnce (str "_") sp0.2 with
      | none => .error ()
      | some iv => .ok (some (.param iv.1 iv.2))
    else if sp0.1 = str "[bridgeexit]" then .ok (some .exitMsg)
    else .ok none

/-- Association-list lookup, modelling `HashMap::get`. -/
def lookupA {α : Type} : List (List Char × α) → List Char → Option α
  | [], _ => none
  | (k, v) :: m, j => if k == j then some v else lookupA m j

/-- Removing every binding of a key, modelling `HashMap::remove`'s effect on
the map. -/
def eraseA {α : Type} (k : List Char) (m : List (List Char × α)) :
    List (List Char × α) :=
  m.filter (fun p => !(p.1 == k))

/-- `HashMap::insert`: the new binding replaces any old binding of the key. -/
def insertA {α : Type} (k : List Char) (v : α) (m : List (List Char × α)) :
    List (List Char × α) :=
  (k, v) :: eraseA k m

/-- The dispatcher task's local state: `receive_map` (channel name ↦ pending
oneshot sender, identified by a numeric id), `function_map` (function name ↦
worker queue id) and `waiting_params` (call id ↦ (function name, accumulated
argument list)).  `closed` models `util_receiver` being closed or dropped
(after which `util_sender.is_closed()` is true); `panicked` marks that the
task died from an `.unwrap()` panic rather than a clean `break`. -/
structure DState where
  receiveMap : List (List Char × Nat)
  functionMap : List (List Char × Nat)
  waitingParams : List (List Char × (List Char × List (List Char)))
  closed : Bool
  panicked : Bool
deriving DecidableEq

def initState : DState := ⟨[], [], [], false, false⟩

/-- Observable effects on the tokio channels: a oneshot waiter fulfilled with
a payload (`d.send(..)`), a oneshot sender dropped without sending (its
receiver resolves with `Err`, which `NodeBridge::receive` maps to
`BridgeClosedError`), or an argument list sent to a function worker's
queue (`f.send(vec![..])`). -/
inductive Event where
  | fulfilled (w : Nat) (payload : List Char)
  | dropped (w : Nat)
  | queued (f : Nat) (args : List (List Char))
deriving DecidableEq

/-- Dropping the whole `receive_map` (as happens when the dispatcher task
ends, by `break` or by panic) drops every pending oneshot sender. -/
def drainEvents (s : DState) : List Event :=
  s.receiveMap.map (fun p => Event.dropped p.2)

/-- State after the dispatcher task panics: all locals (including
`util_receiver`, hence `closed`) are dropped. -/
def panicState (s : DState) : DState :=
  { s with receiveMap := [], functionMap := [], waitingParams := [],
           closed := true, panicked := true }

/-- One decoded record processed by the dispatcher (lib.rs lines 100-196).
* `delivery`: `receive_map.remove(name)` in a loop — on a map with unique
  keys this removes and fulfills exactly the one current waiter, and the
  second iteration's `remove` returns `None` and breaks; removal happens
  before the send is attempted.
* `invoke`: the `noarg` / final-chunk / first-chunk analysis of the `arg`
  field, exactly as in the source (`==`, `ends_with`, `replace`).
* `param`: append to the pending call; on a final chunk forward the
  completed list (if the function is registered) and delete the entry.
* `exitMsg`: `util_receiver.close()` then `break` — the task's maps are
  dropped, dropping every pending oneshot sender. -/
def stepMsg (s : DState) (m : Msg) : DState × List Event :=
  match m with
  | .delivery n v =>
    match lookupA s.receiveMap n with
    | some w => ({ s with receiveMap := eraseA n s.receiveMap }, [.fulfilled w v])
    | none => (s, [])
  | .invoke name id arg =>
    if arg = str "noarg" then
      match lookupA s.functionMap name with
      | some f => (s, [.queued f [id]])
      | none => (s, [])
    else if endsWithL arg (str "[bridgeendline]") then
      match lookupA s.functionMap name with
      | some f => (s, [.queued f [id, eraseAll (str "[bridgeendline]") arg]])
      | none => (s, [])
    else
      ({ s with waitingParams := insertA id (name, [id, arg]) s.waitingParams }, [])
  | .param id value =>
    match lookupA s.waitingParams id with
    | some d =>
      if endsWithL value (str "[bridgeendline]") then
        ({ s with waitingParams := eraseA id s.waitingParams },
          match lookupA s.functionMap d.1 with
          | some f => [.queued f (d.2 ++ [eraseAll (str "[bridgeendline]") value])]
          | none => [])
      else
        ({ s with waitingParams := insertA id (d.1, d.2 ++ [value]) s.waitingParams }, [])
    | none => (s, [])
  | .exitMsg =>
    ({ s with receiveMap := [], functionMap := [], waitingParams := [],
              closed := true }, drainEvents s)

/-- Inputs to the dispatcher's inbox (`UtilType`): a raw line from the
reader, a `receive` registration carrying a fresh oneshot sender, or a
function registration carrying a worker queue sender. -/
inductive Op where
  | readLine (data : List Char)
  | regReceive (channel : List Char) (w : Nat)
  | regFunction (name : List Char) (f : Nat)
deriving DecidableEq

/-- `NodeBridge::is_closed` — `util_sender.is_closed()`. -/
def is_closed (s : DState) : Bool := s.closed || s.panicked

/-- One inbox item.  When the bridge is closed the `util_sender.send` in
`receive`/`register`/the reader fails and the message (with any oneshot
sender inside it) is dropped on the floor; a dropped `Receive` drops its
oneshot sender, resolving that `receive` call with the closed error.
On an open bridge a `ReadLine` is decoded: a decode `.unwrap()` panic kills
the dispatcher task (dropping all its maps), a dropped record does nothing,
a decoded record is processed by `stepMsg`.  `Receive` registration inserts
into `receive_map`, *replacing* any previous waiter for the channel; the
replaced oneshot sender (the return of `HashMap::insert`) is dropped at
that moment. -/
def step (s : DState) (op : Op) : DState × List Event :=
  if is_closed s then
    match op with
    | .regReceive _ w => (s, [.dropped w])
    | _ => (s, [])
  else
    match op with
    | .readLine data =>
      match decode data with
      | .error _ => (panicState s, drainEvents s)
      | .ok none => (s, [])
      | .ok (some m) => stepMsg s m
    | .regReceive c w =>
      match lookupA s.receiveMap c with
      | some oldW => ({ s with receiveMap := insertA c w s.receiveMap }, [.dropped oldW])
      | none => ({ s with receiveMap := insertA c w s.receiveMap }, [])
    | .regFunction n f => ({ s with functionMap := insertA n f s.functionMap }, [])

/-- Run the dispatcher over a list of inbox items, in order. -/
def run (s : DState) : List Op → DState × List Event
  | [] => (s, [])
  | op :: ops =>
    ((run (step s op).1 ops).1, (step s op).2 ++ (run (step s op).1 ops).2)

/-- Run the dispatcher over a list of already-decoded records. -/
def runMsgs (s : DState) : List Msg → DState × List Event
  | [] => (s, [])
  | m :: ms =>
    ((runMsgs (stepMsg s m).1 ms).1, (stepMsg s m).2 ++ (runMsgs (stepMsg s m).1 ms).2)

/-- `NodeBridge::receive`'s result observed from the event list: the first
event concerning waiter `w` decides it — fulfilled ↦ `Ok(payload)`, sender
dropped ↦ `Err(BridgeClosedError)`; `none` while still pending. -/
structure BridgeClosedError where
deriving DecidableEq

def waiterOutcome (evs : List Event) (w : Nat) :
    Option (Except BridgeClosedError (List Char)) :=
  match evs with
  | [] => none
  | .fulfilled w' p :: rest =>
    if w' = w then some (.ok p) else waiterOutcome rest w
  | .dropped w' :: rest =>
    if w' = w then some (.error ⟨⟩) else waiterOutcome rest w
  | .queued _ _ :: rest => waiterOutcome rest w

/-- The line printed by `NodeBridge::send` (lib.rs lines 237-241). -/
def sendLine (channel data : List Char) : List Char :=
  str "tonode__bridge_name[" ++ (channel ++ (str "]_end_name" ++ (data ++ str "[_bridgeendline]")))

/-- `NodeBridge::send`: checks `util_sender.is_closed()`, then prints exactly
one line.  The `.ok` value is the list of lines written to stdout. -/
def send (s : DState) (channel data : List Char) :
    Except BridgeClosedError (List (List Char)) :=
  if is_closed s then .error ⟨⟩ else .ok [sendLine channel data]

/-- Modelled from the spec: §6's outgoing-table row "Channel send",
`tonode__bridge_name[<channel>]_end_name<data>[_bridgeendline]`. -/
def specChannelSendLine (channel data : List Char) : List Char :=
  str "tonode__bridge_name[" ++ (channel ++ (str "]_end_name" ++ (data ++ str "[_bridgeendline]")))

/-- The line printed for a function response (lib.rs lines 302-306). -/
def fnresponseLine (id result : List Char) : List Char :=
  str "fnresponse_" ++ (id ++ (str "_" ++ (result ++ str "[_bridgeendline]")))

/-- The line printed by `register`/`register_async` (lib.rs line 291). -/
def fnregisterLine (name : List Char) : List Char :=
  str "fnregister_" ++ (name ++ str "[_bridgeendline]")

/-- Parsing every argument string with the declared element type's parser;
`none` if any element fails — the source calls `.parse::<B>().unwrap()`. -/
def parseArgs {β : Type} (p : List Char → Option β) :
    List (List Char) → Option (List β)
  | [] => some []
  | a :: as =>
    match p a, parseArgs p as with
    | some b, some bs => some (b :: bs)
    | _, _ => none

/-- The sync `register` worker loop (lib.rs lines 296-313) run over the
queue contents: each item is `callId :: args`; `params.remove(0)` on an
empty item, or a failing `.parse::<B>().unwrap()`, panics the worker task
(second component `true`), which then processes nothing further; otherwise
it prints `fnresponse_<id>_<result>[_bridgeendline]` and continues. -/
def workerRun {β : Type} (p : List Char → Option β) (f : List β → List Char) :
    List (List (List Char)) → List (List Char) × Bool
  | [] => ([], false)
  | item :: rest =>
    match item with
    | [] => ([], true)
    | id :: args =>
      match parseArgs p args with
      | none => ([], true)
      | some vals =>
        ((fnresponseLine id (f vals)) :: (workerRun p f rest).1, (workerRun p f rest).2)

/-- A decimal `Nat` parser standing in for a concrete `B : FromStr`
(`i32`-style) argument element type. -/
def natParseAux : List Char → Nat → Option Nat
  | [], acc => some acc
  | c :: cs, acc =>
    if c.isDigit then natParseAux cs (acc * 10 + (c.toNat - 48)) else none

def natParse (s : List Char) : Option Nat :=
  if s.isEmpty then none else natParseAux s 0

inductive InEvent where
  | delivery (channel payload : List Char)
  | invokeNoArg (name id : List Char)
  | invokeSingle (name id arg : List Char)
  | invokeFirst (name id arg : List Char)
  | paramChunk (id chunk : List Char) (final : Bool)
  | exitEv
deriving DecidableEq

/-- The dispatcher's analysis of a raw record's fields (the `noarg` check,
`ends_with("[bridgeendline]")` and `replace("[bridgeendline]", "")` of
lib.rs lines 141-192), as a pure function to the event level. -/
def analyzeMsg : Msg → InEvent
  | .delivery c v => .delivery c v
  | .invoke n i a =>
    if a = str "noarg" then .invokeNoArg n i
    else if endsWithL a (str "[bridgeendline]") then
      .invokeSingle n i (eraseAll (str "[bridgeendline]") a)
    else .invokeFirst n i a
  | .param i v =>
    if endsWithL v (str "[bridgeendline]") then
      .paramChunk i (eraseAll (str "[bridgeendline]") v) true
    else .paramChunk i v false
  | .exitMsg => .exitEv

/-- The source's full decode of an incoming line to the event level. -/
def decodeEvent (data : List Char) : Except Unit (Option InEvent) :=
  (decode data).map (Option.map analyzeMsg)

/-- The function-call line shared by the three `FunctionInvoke` shapes;
`argField` is the raw text between `_bridge_arg[` and `]_end_arg`. -/
def invokeLine (name id argField : List Char) : List Char :=
  str "function__bridge_name[" ++ (name ++ (str "]_end_name_bridge_id[" ++
    (id ++ (str "]_end_id_bridge_arg[" ++ (argField ++ str "]_end_arg")))))

/-- Modelled from the spec: the peer's (Node-side npm package) encoder for
incoming records is not part of `src/`; this follows the wire grammar of
§6's incoming table (`torust`/`function`/`param`/`[bridgeexit]_` rows,
with `[bridgeendline]` marking a final chunk). -/
def encodeIn : InEvent → List Char
  | .delivery c v => str "torust__bridge_name[" ++ (c ++ (str "]_end_name" ++ v))
  | .invokeNoArg n i => invokeLine n i (str "noarg")
  | .invokeSingle n i a => invokeLine n i (a ++ str "[bridgeendline]")
  | .invokeFirst n i a => invokeLine n i a
  | .paramChunk i c final =>
    str "param_" ++ (i ++ (str "_" ++ (c ++ (if final then str "[bridgeendline]" else []))))
  | .exitEv => str "[bridgeexit]_"

inductive OutEvent where
  | chanSend (channel data : List Char)
  | fnRegistered (name : List Char)
  | fnResponse (id result : List Char)
  | closeEv
deriving DecidableEq

/-- The source's encoder for outgoing lines: the `println!` formats of
`send` (lib.rs 237), `register`/`register_async` (291/323), the response
(302/333) and `close` (260). -/
def encodeOut : OutEvent → List Char
  | .chanSend c d => sendLine c d
  | .fnRegistered n => fnregisterLine n
  | .fnResponse i r => fnresponseLine i r
  | .closeEv => str "_bridge_exit[_bridgeendline]"

/-- Drop a required suffix, or fail. -/
def stripSuffix (suf s : List Char) : Option (List Char) :=
  if endsWithL s suf then some (s.take (s.length - suf.length)) else none

/-- Modelled from the spec: the peer's (Node-side) decoder of outgoing
lines is not part of `src/`; this follows §6's outgoing table — classify by
the leading tag, strip the trailing `[_bridgeendline]`, and for a channel
send take the channel between `tonode__bridge_name[` and `]_end_name`, for
a response split the remainder at the first `_` into call id and result. -/
def peerDecodeOut (line : List Char) : Option OutEvent :=
  if isPrefixL (str "tonode__bridge_name[") line then
    match splitOnce (str "]_end_name") (line.drop (str "tonode__bridge_name[").length) with
    | some cd =>
      match stripSuffix (str "[_bridgeendline]") cd.2 with
      | some d => some (.chanSend cd.1 d)
      | none => none
    | none => none
  else if isPrefixL (str "fnregister_") line then
    (stripSuffix (str "[_bridgeendline]") (line.drop (str "fnregister_").length)).map
      OutEvent.fnRegistered
  else if isPrefixL (str "fnresponse_") line then
    match splitOnce (str "_") (line.drop (str "fnresponse_").length) with
    | some ir =>
      (stripSuffix (str "[_bridgeendline]") ir.2).map (OutEvent.fnResponse ir.1)
    | none => none
  else if line = str "_bridge_exit[_bridgeendline]" then some .closeEv
  else none

instance {ε α : Type} [DecidableEq ε] [DecidableEq α] :
    DecidableEq (Except ε α) := fun a b =>
  match a, b with
  | .error e, .error e' =>
    if h : e = e' then isTrue (by rw [h])
    else isFalse (fun hh => h (Except.error.inj hh))
  | .error _, .ok _ => isFalse (fun h => Except.noConfusion h)
  | .ok _, .error _ => isFalse (fun h => Except.noConfusion h)
  | .ok a, .ok b =>
    if h : a = b then isTrue (by rw [h])
    else isFalse (fun hh => h (Except.ok.inj hh))

/-! ## Theorems -/

theorem isPrefixL_append (p r : List Char) : isPrefixL p (p ++ r) = true := by
  induction p with
  | nil => rfl
  | cons a as ih => simp [isPrefixL, ih]

theorem agree_of_isPrefixL (p : List Char) :
    ∀ x s : List Char, isPrefixL p (x ++ s) = true → agree p x = true := by
  induction p with
  | nil =>
    intro x s _
    cases x <;> rfl
  | cons a as ih =>
    intro x s h
    cases x with
    | nil => rfl
    | cons b bs =>
      simp only [List.cons_append, isPrefixL, Bool.and_eq_true, beq_iff_eq] at h
      simp only [agree, Bool.and_eq_true, beq_iff_eq]
      exact ⟨h.1, ih bs s h.2⟩

theorem agree_false_append_ne (l m : List Char) (h : agree l m = false) :
    ∀ x, l ++ x ≠ m := by
  induction l generalizing m with
  | nil =>
    cases m with
    | nil => simp [agree] at h
    | cons b bs => simp [agree] at h
  | cons a as ih =>
    cases m with
    | nil => simp [agree] at h
    | cons b bs =>
      intro x hx
      simp only [List.cons_append, List.cons.injEq] at hx
      simp only [agree, Bool.and_eq_false_iff, beq_eq_false_iff_ne, ne_eq] at h
      rcases h with h | h
      · exact h hx.1
      · exact ih bs h x hx.2

theorem isPrefixL_false_of_agree_false (p l : List Char) (h : agree p l = false) :
    ∀ x, isPrefixL p (l ++ x) = false := by
  intro x
  cases hpl : isPrefixL p (l ++ x) with
  | false => rfl
  | true => exact absurd (agree_of_isPrefixL p l x hpl) (by simp [h])

theorem splitOnce_self_append (p r : List Char) (hp : p ≠ []) :
    splitOnce p (p ++ r) = some ([], r) := by
  cases p with
  | nil => exact absurd rfl hp
  | cons q qs =>
    show splitOnce (q :: qs) (q :: (qs ++ r)) = some ([], r)
    simp only [splitOnce]
    rw [if_pos (show isPrefixL (q :: qs) (q :: (qs ++ r)) = true from isPrefixL_append (q :: qs) r)]
    simp [List.drop_left]

theorem splitOnce_skip (p l s : List Char) (hnc : noCross p l = true) :
    splitOnce p (l ++ s) = (splitOnce p s).map (fun x => (l ++ x.1, x.2)) := by
  induction l with
  | nil =>
    cases h : splitOnce p s <;> simp [h]
  | cons c cs ih =>
    simp only [noCross, Bool.and_eq_true, Bool.not_eq_true'] at hnc
    obtain ⟨hag, hnc'⟩ := hnc
    show splitOnce p (c :: (cs ++ s)) = _
    simp only [splitOnce]
    rw [if_neg (by
      intro hpre
      have := agree_of_isPrefixL p (c :: cs) s (by simpa using hpre)
      simp [this] at hag)]
    rw [ih hnc']
    cases h : splitOnce p s with
    | none => simp
    | some x => simp

theorem head_beq_false_of_clean (q c : Char) (hq : cleanChar q = false)
    (hc : cleanChar c = true) : (q == c) = false := by
  cases h : q == c with
  | false => rfl
  | true =>
    rw [beq_iff_eq.mp h, hc] at hq
    exact absurd hq (by simp)

theorem noCross_of_clean (p a : List Char) (hp : headNotClean p = true)
    (ha : cleanL a = true) : noCross p a = true := by
  cases p with
  | nil => exact absurd hp (by simp [headNotClean])
  | cons q qs =>
    simp only [headNotClean, Bool.not_eq_true'] at hp
    induction a with
    | nil => rfl
    | cons c cs ih =>
      simp only [cleanL, List.all_cons, Bool.and_eq_true] at ha
      simp only [noCross, Bool.and_eq_true, Bool.not_eq_true']
      refine ⟨?_, ih ha.2⟩
      simp [agree, head_beq_false_of_clean q c hp ha.1]

theorem splitOnce_clean (p a s : List Char) (hp : headNotClean p = true)
    (ha : cleanL a = true) :
    splitOnce p (a ++ s) = (splitOnce p s).map (fun x => (a ++ x.1, x.2)) :=
  splitOnce_skip p a s (noCross_of_clean p a hp ha)

theorem endsWithL_append (a p : List Char) : endsWithL (a ++ p) p = true := by
  unfold endsWithL
  rw [List.reverse_append]
  exact isPrefixL_append p.reverse a.reverse

theorem cleanL_reverse (a : List Char) (ha : cleanL a = true) :
    cleanL a.reverse = true := by
  simp only [cleanL, List.all_eq_true] at *
  intro c hc
  exact ha c (List.mem_reverse.mp hc)

theorem isPrefixL_notClean_clean (p b : List Char) (hp : headNotClean p = true)
    (hb : cleanL b = true) : isPrefixL p b = false := by
  cases p with
  | nil => exact absurd hp (by simp [headNotClean])
  | cons q qs =>
    simp only [headNotClean, Bool.not_eq_true'] at hp
    cases b with
    | nil => rfl
    | cons c cs =>
      simp only [cleanL, List.all_cons, Bool.and_eq_true] at hb
      simp [isPrefixL, head_beq_false_of_clean q c hp hb.1]

theorem endsWithL_clean (a p : List Char) (hp : headNotClean p.reverse = true)
    (ha : cleanL a = true) : endsWithL a p = false := by
  unfold endsWithL
  exact isPrefixL_notClean_clean p.reverse a.reverse hp (cleanL_reverse a ha)

theorem eraseAll_nil (p : List Char) : eraseAll p [] = [] := by
  simp [eraseAll]

theorem eraseAll_self_append (p r : List Char) (hp : p ≠ []) :
    eraseAll p (p ++ r) = eraseAll p r := by
  cases p with
  | nil => exact absurd rfl hp
  | cons q qs =>
    show eraseAll (q :: qs) (q :: (qs ++ r)) = _
    rw [eraseAll]
    rw [if_pos ⟨by simp, isPrefixL_append (q :: qs) r⟩]
    rw [show (q :: qs).length - 1 = qs.length by simp]
    rw [List.drop_left]

theorem isPrefixL_cons_false (q : Char) (qs : List Char) (c : Char) (l : List Char)
    (h : (q == c) = false) : isPrefixL (q :: qs) (c :: l) = false := by
  simp [isPrefixL, h]

theorem eraseAll_clean_append (p a s : List Char) (hp : headNotClean p = true)
    (ha : cleanL a = true) : eraseAll p (a ++ s) = a ++ eraseAll p s := by
  cases p with
  | nil => exact absurd hp (by simp [headNotClean])
  | cons q qs =>
    simp only [headNotClean, Bool.not_eq_true'] at hp
    induction a with
    | nil => simp
    | cons c cs ih =>
      simp only [cleanL, List.all_cons, Bool.and_eq_true] at ha
      show eraseAll (q :: qs) (c :: (cs ++ s)) = _
      rw [eraseAll]
      rw [if_neg (by
        rintro ⟨-, hpre⟩
        rw [isPrefixL_cons_false q qs c (cs ++ s)
          (head_beq_false_of_clean q c hp ha.1)] at hpre
        exact absurd hpre (by simp))]
      rw [ih ha.2]
      simp

theorem lookupA_insertA_self {α : Type} (k : List Char) (v : α)
    (m : List (List Char × α)) : lookupA (insertA k v m) k = some v := by
  simp [insertA, lookupA]

theorem eraseA_cons_self {α : Type} (k : List Char) (v : α)
    (m : List (List Char × α)) : eraseA k ((k, v) :: m) = eraseA k m := by
  simp [eraseA]

theorem eraseA_eraseA {α : Type} (k : List Char) (m : List (List Char × α)) :
    eraseA k (eraseA k m) = eraseA k m := by
  simp only [eraseA, List.filter_filter]
  congr 1
  funext p
  cases h : p.1 == k <;> simp [h]

theorem eraseA_insertA_self {α : Type} (k : List Char) (v : α)
    (m : List (List Char × α)) : eraseA k (insertA k v m) = eraseA k m := by
  simp [insertA, eraseA_cons_self, eraseA_eraseA]

theorem insertA_insertA_self {α : Type} (k : List Char) (v w : α)
    (m : List (List Char × α)) :
    insertA k v (insertA k w m) = insertA k v m := by
  simp only [insertA, eraseA_cons_self, eraseA_eraseA]

theorem lookupA_eraseA_self {α : Type} (k : List Char)
    (m : List (List Char × α)) : lookupA (eraseA k m) k = none := by
  induction m with
  | nil => rfl
  | cons p m ih =>
    obtain ⟨k', v'⟩ := p
    simp only [eraseA, List.filter_cons] at *
    by_cases h : k' = k
    · simpa [h] using ih
    · have hb : (k' == k) = false := beq_eq_false_iff_ne.mpr h
      simpa [hb, lookupA] using ih

theorem append_reassoc3 (a b c X : List Char) :
    (a ++ (b ++ c)) ++ X = a ++ (b ++ (c ++ X)) := by
  simp [List.append_assoc]

theorem append_reassoc2 (a b X : List Char) :
    (a ++ b) ++ X = a ++ (b ++ X) := by
  simp [List.append_assoc]

theorem tagSplit (t w : List Char) (hnc : noCross (str "_") t = true) :
    splitOnce (str "_") (t ++ (str "_" ++ w)) = some (t, w) := by
  rw [splitOnce_skip _ t _ hnc, splitOnce_self_append _ _ (by decide)]
  simp

theorem cleanSplit (p a v : List Char) (hp : headNotClean p = true)
    (ha : cleanL a = true) :
    splitOnce p (a ++ (p ++ v)) = some (a, v) := by
  rw [splitOnce_clean p a _ hp ha, splitOnce_self_append _ _ (by
    cases p with
    | nil => exact absurd hp (by simp [headNotClean])
    | cons q qs => simp)]
  simp

theorem decode_delivery (c v : List Char) (hc : cleanL c = true) :
    decode (str "torust__bridge_name[" ++ (c ++ (str "]_end_name" ++ v))) =
      .ok (some (.delivery c v)) := by
  have h1 : splitOnce (str "_")
      (str "torust__bridge_name[" ++ (c ++ (str "]_end_name" ++ v))) =
      some (str "torust", str "_bridge_name[" ++ (c ++ (str "]_end_name" ++ v))) := by
    rw [show str "torust__bridge_name[" =
        str "torust" ++ (str "_" ++ str "_bridge_name[") from by decide]
    rw [append_reassoc3]
    exact tagSplit _ _ (by decide)
  have h2 : splitOnce (str "torust__bridge_name[")
      (str "torust__bridge_name[" ++ (c ++ (str "]_end_name" ++ v))) =
      some ([], c ++ (str "]_end_name" ++ v)) :=
    splitOnce_self_append _ _ (by decide)
  have h3 : splitOnce (str "]_end_name") (c ++ (str "]_end_name" ++ v)) =
      some (c, v) :=
    cleanSplit _ _ _ (by decide) hc
  simp [decode, h1, h2, h3]

theorem decode_param (i ch : List Char) (hi : cleanL i = true) :
    decode (str "param_" ++ (i ++ (str "_" ++ ch))) =
      .ok (some (.param i ch)) := by
  have h1 : splitOnce (str "_") (str "param_" ++ (i ++ (str "_" ++ ch))) =
      some (str "param", i ++ (str "_" ++ ch)) := by
    rw [show str "param_" = str "param" ++ str "_" from by decide]
    rw [append_reassoc2]
    exact tagSplit _ _ (by decide)
  have h2 : splitOnce (str "_") (i ++ (str "_" ++ ch)) = some (i, ch) :=
    cleanSplit _ _ _ (by decide) hi
  simp +decide [decode, h1, h2]

theorem decode_exit : decode (str "[bridgeexit]_") = .ok (some .exitMsg) := by
  decide

theorem decode_invokeLine (n i A : List Char) (hn : cleanL n = true)
    (hi : cleanL i = true)
    (hA : splitOnce (str "]_end_arg") (A ++ str "]_end_arg") = some (A, [])) :
    decode (invokeLine n i A) = .ok (some (.invoke n i A)) := by
  have hSEC : invokeLine n i A =
      str "function" ++ (str "_" ++ (str "_" ++ (str "bridge_name[" ++
        (n ++ (str "]_end_name" ++ (str "_bridge_id[" ++ (i ++
          (str "]_end_id" ++ (str "_bridge_arg[" ++ (A ++ str "]_end_arg")))))))))) := by
    unfold invokeLine
    rw [show str "function__bridge_name[" =
        str "function" ++ (str "_" ++ (str "_" ++ str "bridge_name[")) from by decide]
    rw [show str "]_end_name_bridge_id[" =
        str "]_end_name" ++ str "_bridge_id[" from by decide]
    rw [show str "]_end_id_bridge_arg[" =
        str "]_end_id" ++ str "_bridge_arg[" from by decide]
    simp [List.append_assoc]
  rw [hSEC]
  have h1 : splitOnce (str "_")
      (str "function" ++ (str "_" ++ (str "_" ++ (str "bridge_name[" ++
        (n ++ (str "]_end_name" ++ (str "_bridge_id[" ++ (i ++
          (str "]_end_id" ++ (str "_bridge_arg[" ++ (A ++ str "]_end_arg"))))))))))) =
      some (str "function", str "_" ++ (str "bridge_name[" ++
        (n ++ (str "]_end_name" ++ (str "_bridge_id[" ++ (i ++
          (str "]_end_id" ++ (str "_bridge_arg[" ++ (A ++ str "]_end_arg"))))))))) :=
    tagSplit _ _ (by decide)
  have h2 : splitOnce (str "_")
      (str "_" ++ (str "bridge_name[" ++
        (n ++ (str "]_end_name" ++ (str "_bridge_id[" ++ (i ++
          (str "]_end_id" ++ (str "_bridge_arg[" ++ (A ++ str "]_end_arg"))))))))) =
      some ([], str "bridge_name[" ++
        (n ++ (str "]_end_name" ++ (str "_bridge_id[" ++ (i ++
          (str "]_end_id" ++ (str "_bridge_arg[" ++ (A ++ str "]_end_arg")))))))) :=
    splitOnce_self_append _ _ (by decide)
  have h3 : splitOnce (str "bridge_name[")
      (str "bridge_name[" ++
        (n ++ (str "]_end_name" ++ (str "_bridge_id[" ++ (i ++
          (str "]_end_id" ++ (str "_bridge_arg[" ++ (A ++ str "]_end_arg")))))))) =
      some ([], n ++ (str "]_end_name" ++ (str "_bridge_id[" ++ (i ++
          (str "]_end_id" ++ (str "_bridge_arg[" ++ (A ++ str "]_end_arg"))))))) :=
    splitOnce_self_append _ _ (by decide)
  have h4 : splitOnce (str "]_end_name")
      (n ++ (str "]_end_name" ++ (str "_bridge_id[" ++ (i ++
          (str "]_end_id" ++ (str "_bridge_arg[" ++ (A ++ str "]_end_arg"))))))) =
      some (n, str "_bridge_id[" ++ (i ++
          (str "]_end_id" ++ (str "_bridge_arg[" ++ (A ++ str "]_end_arg"))))) :=
    cleanSplit _ _ _ (by decide) hn
  have h5 : splitOnce (str "_bridge_id[")
      (str "bridge_name[" ++
        (n ++ (str "]_end_name" ++ (str "_bridge_id[" ++ (i ++
          (str "]_end_id" ++ (str "_bridge_arg[" ++ (A ++ str "]_end_arg")))))))) =
      some (str "bridge_name[" ++ (n ++ str "]_end_name"), i ++
          (str "]_end_id" ++ (str "_bridge_arg[" ++ (A ++ str "]_end_arg")))) := by
    rw [splitOnce_skip (str "_bridge_id[") (str "bridge_name[") _ (by decide)]
    rw [splitOnce_clean (str "_bridge_id[") n _ (by decide) hn]
    rw [splitOnce_skip (str "_bridge_id[") (str "]_end_name") _ (by decide)]
    rw [splitOnce_self_append _ _ (by decide)]
    simp
  have h6 : splitOnce (str "]_end_id")
      (i ++ (str "]_end_id" ++ (str "_bridge_arg[" ++ (A ++ str "]_end_arg")))) =
      some (i, str "_bridge_arg[" ++ (A ++ str "]_end_arg")) :=
    cleanSplit _ _ _ (by decide) hi
  have h7 : splitOnce (str "_bridge_arg[")
      (str "bridge_name[" ++
        (n ++ (str "]_end_name" ++ (str "_bridge_id[" ++ (i ++
          (str "]_end_id" ++ (str "_bridge_arg[" ++ (A ++ str "]_end_arg")))))))) =
      some (str "bridge_name[" ++ (n ++ (str "]_end_name" ++
          (str "_bridge_id[" ++ (i ++ str "]_end_id")))), A ++ str "]_end_arg") := by
    rw [splitOnce_skip (str "_bridge_arg[") (str "bridge_name[") _ (by decide)]
    rw [splitOnce_clean (str "_bridge_arg[") n _ (by decide) hn]
    rw [splitOnce_skip (str "_bridge_arg[") (str "]_end_name") _ (by decide)]
    rw [splitOnce_skip (str "_bridge_arg[") (str "_bridge_id[") _ (by decide)]
    rw [splitOnce_clean (str "_bridge_arg[") i _ (by decide) hi]
    rw [splitOnce_skip (str "_bridge_arg[") (str "]_end_id") _ (by decide)]
    rw [splitOnce_self_append _ _ (by decide)]
    simp
  simp +decide [decode, h1, h2, h3, h4, h5, h6, h7, hA]

theorem eraseAll_clean_endl (a : List Char) (ha : cleanL a = true) :
    eraseAll (str "[bridgeendline]") (a ++ str "[bridgeendline]") = a := by
  rw [eraseAll_clean_append _ a _ (by decide) ha]
  have h := eraseAll_self_append (str "[bridgeendline]") [] (by decide)
  rw [List.append_nil] at h
  rw [h, eraseAll_nil, List.append_nil]

theorem append_endl_ne_noarg (a : List Char) :
    a ++ str "[bridgeendline]" ≠ str "noarg" := by
  intro h
  have hl := congrArg List.length h
  rw [List.length_append] at hl
  rw [show (str "[bridgeendline]").length = 15 from by decide] at hl
  rw [show (str "noarg").length = 5 from by decide] at hl
  omega

theorem decodeEvent_delivery (c v : List Char) (hc : cleanL c = true) :
    decodeEvent (encodeIn (.delivery c v)) = .ok (some (.delivery c v)) := by
  simp [decodeEvent, encodeIn, decode_delivery c v hc, analyzeMsg,
    Except.map, Option.map]

theorem decodeEvent_invokeNoArg (n i : List Char) (hn : cleanL n = true)
    (hi : cleanL i = true) :
    decodeEvent (encodeIn (.invokeNoArg n i)) = .ok (some (.invokeNoArg n i)) := by
  have hd := decode_invokeLine n i (str "noarg") hn hi (by decide)
  simp +decide [decodeEvent, encodeIn, hd, analyzeMsg, Except.map, Option.map]

theorem decodeEvent_invokeSingle (n i a : List Char) (hn : cleanL n = true)
    (hi : cleanL i = true) (ha : cleanL a = true) :
    decodeEvent (encodeIn (.invokeSingle n i a)) = .ok (some (.invokeSingle n i a)) := by
  have hA : splitOnce (str "]_end_arg")
      ((a ++ str "[bridgeendline]") ++ str "]_end_arg") =
      some (a ++ str "[bridgeendline]", []) := by
    rw [append_reassoc2]
    rw [splitOnce_clean _ a _ (by decide) ha]
    rw [show splitOnce (str "]_end_arg") (str "[bridgeendline]" ++ str "]_end_arg") =
        some (str "[bridgeendline]", []) from by decide]
    simp
  have hd := decode_invokeLine n i (a ++ str "[bridgeendline]") hn hi hA
  simp only [decodeEvent, encodeIn, hd, Except.map, Option.map, analyzeMsg]
  rw [if_neg (append_endl_ne_noarg a)]
  rw [endsWithL_append a (str "[bridgeendline]")]
  simp [eraseAll_clean_endl a ha]

theorem decodeEvent_invokeFirst (n i a : List Char) (hn : cleanL n = true)
    (hi : cleanL i = true) (ha : cleanL a = true) (hna : a ≠ str "noarg") :
    decodeEvent (encodeIn (.invokeFirst n i a)) = .ok (some (.invokeFirst n i a)) := by
  have hA : splitOnce (str "]_end_arg") (a ++ str "]_end_arg") = some (a, []) := by
    have := cleanSplit (str "]_end_arg") a [] (by decide) ha
    simpa using this
  have hd := decode_invokeLine n i a hn hi hA
  simp only [decodeEvent, encodeIn, hd, Except.map, Option.map, analyzeMsg]
  rw [if_neg hna]
  rw [endsWithL_clean a (str "[bridgeendline]") (by decide) ha]
  simp

theorem decodeEvent_paramFinal (i ch : List Char) (hi : cleanL i = true)
    (hch : cleanL ch = true) :
    decodeEvent (encodeIn (.paramChunk i ch true)) = .ok (some (.paramChunk i ch true)) := by
  have hd := decode_param i (ch ++ str "[bridgeendline]") hi
  have he : encodeIn (.paramChunk i ch true) =
      str "param_" ++ (i ++ (str "_" ++ (ch ++ str "[bridgeendline]"))) := rfl
  rw [he]
  simp only [decodeEvent, hd, Except.map, Option.map, analyzeMsg]
  rw [endsWithL_append ch (str "[bridgeendline]")]
  simp [eraseAll_clean_endl ch hch]

theorem decodeEvent_paramChunk (i ch : List Char) (hi : cleanL i = true)
    (hch : cleanL ch = true) :
    decodeEvent (encodeIn (.paramChunk i ch false)) = .ok (some (.paramChunk i ch false)) := by
  have hd := decode_param i ch hi
  have he : encodeIn (.paramChunk i ch false) =
      str "param_" ++ (i ++ (str "_" ++ ch)) := by
    simp [encodeIn]
  rw [he]
  simp only [decodeEvent, hd, Except.map, Option.map, analyzeMsg]
  rw [endsWithL_clean ch (str "[bridgeendline]") (by decide) hch]
  simp

theorem decodeEvent_exit : decodeEvent (encodeIn .exitEv) = .ok (some .exitEv) := by
  decide

theorem stripSuffix_append (suf s : List Char) : stripSuffix suf (s ++ suf) = some s := by
  unfold stripSuffix
  rw [if_pos (endsWithL_append s suf)]
  have h : (s ++ suf).length - suf.length = s.length := by
    simp [List.length_append]
  rw [h, List.take_left]

theorem peerDecodeOut_chanSend (c d : List Char) (hc : cleanL c = true) :
    peerDecodeOut (encodeOut (.chanSend c d)) = some (.chanSend c d) := by
  simp only [encodeOut, sendLine, peerDecodeOut]
  rw [if_pos (isPrefixL_append (str "tonode__bridge_name[") _)]
  rw [List.drop_left]
  rw [cleanSplit (str "]_end_name") c _ (by decide) hc]
  simp [stripSuffix_append]

theorem peerDecodeOut_fnRegistered (n : List Char) :
    peerDecodeOut (encodeOut (.fnRegistered n)) = some (.fnRegistered n) := by
  simp only [encodeOut, fnregisterLine, peerDecodeOut]
  rw [if_neg (by
    rw [isPrefixL_false_of_agree_false (str "tonode__bridge_name[")
      (str "fnregister_") (by decide)]
    simp)]
  rw [if_pos (isPrefixL_append (str "fnregister_") _)]
  rw [List.drop_left]
  simp [stripSuffix_append]

theorem peerDecodeOut_fnResponse (i r : List Char) (hi : cleanL i = true) :
    peerDecodeOut (encodeOut (.fnResponse i r)) = some (.fnResponse i r) := by
  simp only [encodeOut, fnresponseLine, peerDecodeOut]
  rw [if_neg (by
    rw [isPrefixL_false_of_agree_false (str "tonode__bridge_name[")
      (str "fnresponse_") (by decide)]
    simp)]
  rw [if_neg (by
    rw [isPrefixL_false_of_agree_false (str "fnregister_")
      (str "fnresponse_") (by decide)]
    simp)]
  rw [if_pos (isPrefixL_append (str "fnresponse_") _)]
  rw [List.drop_left]
  rw [cleanSplit (str "_") i _ (by decide) hi]
  simp [stripSuffix_append]

theorem peerDecodeOut_close :
    peerDecodeOut (encodeOut .closeEv) = some .closeEv := by
  decide

/-- C1 counterexample: two `receive("c")` registrations with no close and no
delivery — the replaced waiter 1 already resolves with the closed-bridge
error (`waiterOutcome … = some (error)`) at the moment of replacement, while
`is_closed` is still false and the bridge never closed; the claim said it
resolves only when the bridge closes. -/
theorem c1_counterexample :
    waiterOutcome
      (run initState [.regReceive (str "c") 1, .regReceive (str "c") 2]).2 1 =
        some (.error ⟨⟩)
    ∧ is_closed (run initState [.regReceive (str "c") 1, .regReceive (str "c") 2]).1 =
        false := by
  decide

/-- C1 (amended): registering a new `receive(c)` waiter while one is pending
replaces it, and the old oneshot sender (the value returned by
`HashMap::insert`) is dropped at that very moment: the old waiter is never
fulfilled with any payload, and its `receive` call resolves with the
closed-bridge error immediately at replacement — not only when the bridge
closes.  A later delivery for `c` fulfills only the new waiter. -/
theorem c1_replacement_drops_old_waiter (s : DState) (c : List Char) (w1 w2 : Nat)
    (hopen : is_closed s = false) (h : lookupA s.receiveMap c = some w1) :
    step s (.regReceive c w2) =
      ({ s with receiveMap := insertA c w2 s.receiveMap }, [.dropped w1])
    ∧ waiterOutcome [.dropped w1] w1 = some (.error ⟨⟩)
    ∧ lookupA (insertA c w2 s.receiveMap) c = some w2
    ∧ (∀ p, stepMsg { s with receiveMap := insertA c w2 s.receiveMap } (.delivery c p) =
        ({ s with receiveMap := eraseA c (insertA c w2 s.receiveMap) },
          [.fulfilled w2 p])) := by
  refine ⟨?_, ?_, lookupA_insertA_self c w2 s.receiveMap, ?_⟩
  · simp [step, hopen, h]
  · simp [waiterOutcome]
  · intro p
    simp [stepMsg, lookupA_insertA_self]

theorem c1_witness :
    step ⟨[(str "c", 1)], [], [], false, false⟩ (.regReceive (str "c") 2) =
      (⟨[(str "c", 2)], [], [], false, false⟩, [.dropped 1]) :=
  (c1_replacement_drops_old_waiter ⟨[(str "c", 1)], [], [], false, false⟩
    (str "c") 1 2 (by decide) (by decide)).1

/-- C2 counterexample: the record `torust_x` has the recognized tag `torust`
but is missing the required `torust__bridge_name[` / `]_end_name` fields.
It is not dropped: the dispatcher panics (`split_once(..).unwrap()` on
`None`), the pending waiter for "c" is dropped, the state changes, and the
later well-formed delivery for "c" is never processed. -/
theorem c2_counterexample :
    step ⟨[(str "c", 1)], [], [], false, false⟩ (.readLine (str "torust_x")) =
      (⟨[], [], [], true, true⟩, [.dropped 1])
    ∧ step ⟨[(str "c", 1)], [], [], false, false⟩ (.readLine (str "torust_x")) ≠
      (⟨[(str "c", 1)], [], [], false, false⟩, [])
    ∧ step ⟨[], [], [], true, true⟩
        (.readLine (str "torust__bridge_name[c]_end_namev")) =
        (⟨[], [], [], true, true⟩, []) := by
  decide

/-- C2 (amended): a record whose first `_`-separated segment is not one of
the four recognized tags is dropped non-fatally — no response, no dispatcher
state change, processing resumes.  But a record bearing a recognized tag
while missing a required bracketed field (e.g. `torust_x`), or a record with
no `_` at all, makes a `split_once(..).unwrap()` panic: the dispatcher task
dies (dropping every pending waiter) and no further record is processed. -/
theorem c2_unrecognized_dropped_malformed_fatal (s : DState)
    (data tag rest : List Char)
    (hopen : is_closed s = false)
    (hsplit : splitOnce (str "_") data = some (tag, rest))
    (ht1 : tag ≠ str "torust") (ht2 : tag ≠ str "function")
    (ht3 : tag ≠ str "param") (ht4 : tag ≠ str "[bridgeexit]") :
    step s (.readLine data) = (s, [])
    ∧ step s (.readLine (str "torust_x")) = (panicState s, drainEvents s)
    ∧ decode (str "torust_x") = .error ()
    ∧ decode (str "nounderscore") = .error () := by
  refine ⟨?_, ?_, by decide, by decide⟩
  · have hd : decode data = .ok none := by
      simp only [decode, hsplit]
      simp [ht1, ht2, ht3, ht4]
    simp [step, hopen, hd]
  · have hd : decode (str "torust_x") = .error () := by decide
    simp [step, hopen, hd]

theorem c2_witness :
    step initState (.readLine (str "hello_world")) = (initState, []) :=
  (c2_unrecognized_dropped_malformed_fatal initState (str "hello_world")
    (str "hello") (str "world") (by decide) (by decide) (by decide) (by decide)
    (by decide) (by decide)).1

/-- C6: when a `ChannelDelivery{c, p}` is processed, the waiter currently in
`receive_map` for `c` (the most recently registered one — registration
replaces, see `c1_replacement_drops_old_waiter`) and no other entry is
removed from the map, removal happening before the single fulfillment
attempt with exactly `p` (at most one event is emitted); if no waiter for
`c` is pending, the delivery has no effect. -/
theorem c6_delivery_fulfills_current_waiter (s : DState) (c p : List Char) :
    (∀ w, lookupA s.receiveMap c = some w →
      stepMsg s (.delivery c p) =
        ({ s with receiveMap := eraseA c s.receiveMap }, [.fulfilled w p])
      ∧ lookupA (eraseA c s.receiveMap) c = none)
    ∧ (lookupA s.receiveMap c = none → stepMsg s (.delivery c p) = (s, [])) := by
  constructor
  · intro w h
    exact ⟨by simp [stepMsg, h], lookupA_eraseA_self c s.receiveMap⟩
  · intro h
    simp [stepMsg, h]

theorem c6_witness :
    stepMsg ⟨[(str "c", 5)], [], [], false, false⟩ (.delivery (str "c") (str "p")) =
      (⟨[], [], [], false, false⟩, [.fulfilled 5 (str "p")]) :=
  ((c6_delivery_fulfills_current_waiter ⟨[(str "c", 5)], [], [], false, false⟩
    (str "c") (str "p")).1 5 (by decide)).1

/-- C7: once the bridge is closed, `send` returns `Err(BridgeClosedError)`
without writing anything and a `receive` registration's oneshot sender is
dropped, so the call resolves with `Err(BridgeClosedError)`; on an open
bridge `send` returns `Ok(())` having written its line. -/
theorem c7_closed_bridge_errors (sClosed sOpen : DState) (c d ch : List Char)
    (w : Nat) (h1 : is_closed sClosed = true) (h2 : is_closed sOpen = false) :
    send sClosed c d = .error ⟨⟩
    ∧ send sOpen c d = .ok [sendLine c d]
    ∧ step sClosed (.regReceive ch w) = (sClosed, [.dropped w])
    ∧ waiterOutcome [.dropped w] w = some (.error ⟨⟩) := by
  refine ⟨by simp [send, h1], by simp [send, h2], by simp [step, h1],
    by simp [waiterOutcome]⟩

theorem c7_witness :
    send ⟨[], [], [], true, false⟩ (str "c") (str "d") = .error ⟨⟩
    ∧ send initState (str "c") (str "d") = .ok [sendLine (str "c") (str "d")] :=
  ⟨(c7_closed_bridge_errors ⟨[], [], [], true, false⟩ initState (str "c")
      (str "d") (str "e") 3 (by decide) (by decide)).1,
    (c7_closed_bridge_errors ⟨[], [], [], true, false⟩ initState (str "c")
      (str "d") (str "e") 3 (by decide) (by decide)).2.1⟩

theorem waiterOutcome_drain (l : List (List Char × Nat)) (w : Nat)
    (h : w ∈ l.map (fun q => q.2)) :
    waiterOutcome (l.map (fun q => Event.dropped q.2)) w = some (.error ⟨⟩) := by
  induction l with
  | nil => simp at h
  | cons q l ih =>
    simp only [List.map_cons, waiterOutcome]
    by_cases hw : q.2 = w
    · simp [hw]
    · rw [if_neg hw]
      apply ih
      simp only [List.map_cons, List.mem_cons] at h
      rcases h with h | h
      · exact absurd h.symm hw
      · exact h

/-- C8: processing the exit sentinel line `[bridgeexit]_` closes the bridge:
the dispatcher loop exits with all maps dropped, `is_closed` reports true,
every subsequent record is ignored, and every pending `receive` waiter is
dropped unfulfilled, so each resolves with `Err(BridgeClosedError)`.  (The
shallow model renders "within bounded time" as: these effects happen at the
processing of the sentinel, the next item the dispatcher dequeues.) -/
theorem c8_exit_sentinel_closes (s : DState) (h : is_closed s = false) :
    step s (.readLine (str "[bridgeexit]_")) =
      (⟨[], [], [], true, s.panicked⟩, drainEvents s)
    ∧ is_closed ⟨[], [], [], true, s.panicked⟩ = true
    ∧ (∀ d, step ⟨[], [], [], true, s.panicked⟩ (.readLine d) =
        (⟨[], [], [], true, s.panicked⟩, []))
    ∧ (∀ w, w ∈ s.receiveMap.map (fun q => q.2) →
        waiterOutcome (drainEvents s) w = some (.error ⟨⟩)) := by
  refine ⟨?_, by simp [is_closed], ?_, ?_⟩
  · simp [step, h, decode_exit, stepMsg]
  · intro d
    simp [step, is_closed]
  · intro w hw
    exact waiterOutcome_drain s.receiveMap w hw

theorem c8_witness :
    step ⟨[(str "a", 3)], [], [], false, false⟩ (.readLine (str "[bridgeexit]_")) =
      (⟨[], [], [], true, false⟩, [.dropped 3])
    ∧ waiterOutcome (drainEvents ⟨[(str "a", 3)], [], [], false, false⟩) 3 =
      some (.error ⟨⟩) :=
  ⟨(c8_exit_sentinel_closes ⟨[(str "a", 3)], [], [], false, false⟩ (by decide)).1,
    (c8_exit_sentinel_closes ⟨[(str "a", 3)], [], [], false, false⟩
      (by decide)).2.2.2 3 (by decide)⟩

/-- C9: a successful `send(c, d)` on an open bridge writes immediately
exactly one line, and that line is exactly the spec's
`tonode__bridge_name[<c>]_end_name<d>[_bridgeendline]` grammar (the model's
unit of output is one newline-terminated line). -/
theorem c9_send_writes_spec_line (s : DState) (c d : List Char)
    (h : is_closed s = false) :
    send s c d = .ok [specChannelSendLine c d]
    ∧ [specChannelSendLine c d].length = 1 := by
  exact ⟨by simp [send, h, sendLine, specChannelSendLine], by simp⟩

theorem c9_witness :
    send initState (str "a") (str "b") =
      .ok [specChannelSendLine (str "a") (str "b")] :=
  (c9_send_writes_spec_line initState (str "a") (str "b") (by decide)).1

/-- C10: an incoming function-call record whose extracted argument field is
exactly `noarg` — including the wire form of an intended first chunk whose
chunk text happens to be `noarg`, which decodes to the same record — is a
no-argument call: `[callId]` is forwarded to the function's queue iff the
function is registered (dropped otherwise), the state (in particular
`waiting_params`) is unchanged so no PendingCall is created, and a
ParamChunk whose callId has no PendingCall is dropped silently. -/
theorem c10_noarg_call (s : DState) (name id v : List Char) :
    (∀ f, lookupA s.functionMap name = some f →
      stepMsg s (.invoke name id (str "noarg")) = (s, [.queued f [id]]))
    ∧ (lookupA s.functionMap name = none →
      stepMsg s (.invoke name id (str "noarg")) = (s, []))
    ∧ (lookupA s.waitingParams id = none → stepMsg s (.param id v) = (s, []))
    ∧ (cleanL name = true → cleanL id = true →
      decode (encodeIn (.invokeFirst name id (str "noarg"))) =
        .ok (some (.invoke name id (str "noarg")))) := by
  refine ⟨?_, ?_, ?_, ?_⟩
  · intro f hf
    simp [stepMsg, hf]
  · intro hf
    simp [stepMsg, hf]
  · intro hw
    simp [stepMsg, hw]
  · intro hn hi
    exact decode_invokeLine name id (str "noarg") hn hi (by decide)

theorem c10_witness :
    stepMsg ⟨[], [(str "g", 5)], [], false, false⟩
      (.invoke (str "g") (str "7") (str "noarg")) =
      (⟨[], [(str "g", 5)], [], false, false⟩, [.queued 5 [str "7"]]) :=
  (c10_noarg_call ⟨[], [(str "g", 5)], [], false, false⟩ (str "g") (str "7")
    (str "x")).1 5 (by decide)

/-- C3 counterexample: the worker for a `Vec<Nat>`-argument function gets
two queued invocations; the first has the unparsable argument `x`.  The
`parse().unwrap()` panic kills the worker: no response is written for the
first *or* the second invocation (whereas alone, the second invocation would
have produced its response) — the claim said the worker does not crash and
continues with subsequent invocations. -/
theorem c3_counterexample :
    workerRun natParse (fun _ => str "r")
        [[str "1", str "x"], [str "2", str "3"]] = ([], true)
    ∧ workerRun natParse (fun _ => str "r") [[str "2", str "3"]] =
        ([fnresponseLine (str "2") (str "r")], false) := by
  decide

/-- C3 (amended): if a queued invocation's arguments fail to parse into the
declared element type, that invocation is dropped with no `FunctionResponse`
— but the `.unwrap()` panic kills the worker task, so no subsequent queued
invocation of that function is processed either; only invocations completed
before the failing one have responses. -/
theorem c3_parse_failure_kills_worker {β : Type} (p : List Char → Option β)
    (f : List β → List Char) (good : List (List (List Char))) (id : List Char)
    (badArgs : List (List Char)) (rest : List (List (List Char)))
    (hg : (workerRun p f good).2 = false)
    (hb : parseArgs p badArgs = none) :
    workerRun p f (good ++ (id :: badArgs) :: rest) =
      ((workerRun p f good).1, true) := by
  induction good with
  | nil =>
    simp only [List.nil_append, workerRun, hb]
  | cons item g ih =>
    cases item with
    | nil => simp [workerRun] at hg
    | cons i0 args =>
      cases hpa : parseArgs p args with
      | none => simp [workerRun, hpa] at hg
      | some vals =>
        have hg' : (workerRun p f g).2 = false := by
          simpa [workerRun, hpa] using hg
        simp only [List.cons_append, workerRun, hpa]
        rw [show List.append g ((id :: badArgs) :: rest) =
          g ++ (id :: badArgs) :: rest from rfl]
        rw [ih hg']

theorem c3_witness :
    workerRun natParse (fun _ => str "r")
        ([[str "5", str "6"]] ++ (str "1" :: [str "x"]) :: [[str "2", str "3"]]) =
      ([fnresponseLine (str "5") (str "r")], true) :=
  c3_parse_failure_kills_worker natParse (fun _ => str "r") [[str "5", str "6"]]
    (str "1") [str "x"] [[str "2", str "3"]] (by decide) (by decide)

theorem runMsgs_nil (s : DState) : runMsgs s [] = (s, []) := rfl

theorem runMsgs_cons (s : DState) (m : Msg) (ms : List Msg) :
    runMsgs s (m :: ms) =
      ((runMsgs (stepMsg s m).1 ms).1,
        (stepMsg s m).2 ++ (runMsgs (stepMsg s m).1 ms).2) := rfl

theorem runMsgs_append (s : DState) (ms1 ms2 : List Msg) :
    runMsgs s (ms1 ++ ms2) =
      ((runMsgs (runMsgs s ms1).1 ms2).1,
        (runMsgs s ms1).2 ++ (runMsgs (runMsgs s ms1).1 ms2).2) := by
  induction ms1 generalizing s with
  | nil => simp [runMsgs]
  | cons m ms ih =>
    show runMsgs s (m :: (ms ++ ms2)) = _
    simp only [runMsgs]
    rw [ih]
    simp [List.append_assoc]

theorem runMsgs_param_accum (id : List Char) (cs : List (List Char))
    (hcs : ∀ c ∈ cs, endsWithL c (str "[bridgeendline]") = false) :
    ∀ (s : DState) (name : List Char) (acc : List (List Char)),
      lookupA s.waitingParams id = some (name, acc) →
      ∃ s' : DState,
        runMsgs s (cs.map (Msg.param id)) = (s', [])
        ∧ lookupA s'.waitingParams id = some (name, acc ++ cs)
        ∧ eraseA id s'.waitingParams = eraseA id s.waitingParams
        ∧ s'.receiveMap = s.receiveMap ∧ s'.functionMap = s.functionMap
        ∧ s'.closed = s.closed ∧ s'.panicked = s.panicked := by
  induction cs with
  | nil =>
    intro s name acc h
    exact ⟨s, by simp [runMsgs], by simpa using h, rfl, rfl, rfl, rfl, rfl⟩
  | cons c cs ih =>
    intro s name acc h
    have hc : endsWithL c (str "[bridgeendline]") = false := hcs c (by simp)
    have hstep : stepMsg s (.param id c) =
        ({ s with waitingParams := insertA id (name, acc ++ [c]) s.waitingParams },
          []) := by
      simp [stepMsg, h, hc]
    obtain ⟨s', h1, h2, h3, h4, h5, h6, h7⟩ :=
      ih (fun c' hc' => hcs c' (by simp [hc']))
        { s with waitingParams := insertA id (name, acc ++ [c]) s.waitingParams }
        name (acc ++ [c]) (lookupA_insertA_self id _ s.waitingParams)
    refine ⟨s', ?_, ?_, ?_, by simpa using h4, by simpa using h5,
      by simpa using h6, by simpa using h7⟩
    · simp only [List.map_cons, runMsgs, hstep, h1]
      simp
    · rw [h2]
      simp
    · rw [h3]
      simp [eraseA_insertA_self]

/-- C5: a multi-chunk call — a `FunctionInvoke` whose argument chunk is
non-final and not `noarg`, followed by non-final `ParamChunk`s and one final
`ParamChunk`, all with the same callId — hands exactly one invocation to the
registered function's queue, carrying the callId followed by all chunks in
arrival order (the final chunk with its `[bridgeendline]` marker stripped);
no invocation occurs before the final chunk (the prefix run emits no
events), the PendingCall entry is deleted when the final chunk arrives, and
a ParamChunk whose callId has no PendingCall is dropped silently. -/
theorem c5_multichunk_call (s : DState) (f : Nat) (name id vA vF : List Char)
    (cs : List (List Char))
    (hf : lookupA s.functionMap name = some f)
    (hA1 : vA ≠ str "noarg")
    (hA2 : endsWithL vA (str "[bridgeendline]") = false)
    (hcs : ∀ c ∈ cs, endsWithL c (str "[bridgeendline]") = false)
    (hF : endsWithL vF (str "[bridgeendline]") = true) :
    runMsgs s (.invoke name id vA :: (cs.map (Msg.param id) ++ [.param id vF])) =
      ({ s with waitingParams := eraseA id s.waitingParams },
        [.queued f (id :: vA :: (cs ++ [eraseAll (str "[bridgeendline]") vF]))])
    ∧ runMsgs s (.invoke name id vA :: cs.map (Msg.param id)) =
        ((runMsgs s (.invoke name id vA :: cs.map (Msg.param id))).1, [])
    ∧ (∀ (s' : DState) (v : List Char), lookupA s'.waitingParams id = none →
        stepMsg s' (.param id v) = (s', [])) := by
  have hstep1 : stepMsg s (.invoke name id vA) =
      ({ s with waitingParams := insertA id (name, [id, vA]) s.waitingParams },
        []) := by
    simp [stepMsg, hA1, hA2]
  obtain ⟨s2, h1, h2, h3, h4, h5, h6, h7⟩ :=
    runMsgs_param_accum id cs hcs
      { s with waitingParams := insertA id (name, [id, vA]) s.waitingParams }
      name [id, vA] (lookupA_insertA_self id _ s.waitingParams)
  have hfm2 : lookupA s2.functionMap name = some f := by
    rw [h5]
    exact hf
  have hfinal : stepMsg s2 (.param id vF) =
      ({ s with waitingParams := eraseA id s.waitingParams },
        [.queued f (id :: vA :: (cs ++ [eraseAll (str "[bridgeendline]") vF]))]) := by
    have hwp : eraseA id s2.waitingParams = eraseA id s.waitingParams := by
      rw [h3]
      simp [eraseA_insertA_self]
    simp only [stepMsg, h2, hF, hfm2, if_true]
    simp only [Prod.mk.injEq]
    refine ⟨?_, by simp⟩
    obtain ⟨rm2, fm2, wp2, cl2, pk2⟩ := s2
    obtain ⟨rm, fm, wp, cl, pk⟩ := s
    simp only at h4 h5 h6 h7 hwp
    simp [h4, h5, h6, h7, hwp]
  refine ⟨?_, ?_, ?_⟩
  · rw [runMsgs_cons, hstep1]
    dsimp only
    rw [runMsgs_append, h1]
    dsimp only
    rw [runMsgs_cons, hfinal]
    dsimp only
    rw [runMsgs_nil]
    simp
  · rw [runMsgs_cons, hstep1]
    dsimp only
    rw [h1]
    simp
  · intro s' v hw
    simp [stepMsg, hw]

theorem c5_witness :
    runMsgs ⟨[], [(str "f", 7)], [], false, false⟩
        [.invoke (str "f") (str "42") (str "a"),
         .param (str "42") (str "b"),
         .param (str "42") (str "c[bridgeendline]")] =
      (⟨[], [(str "f", 7)], [], false, false⟩,
        [.queued 7 [str "42", str "a", str "b", str "c"]]) := by
  have hce : eraseAll (str "[bridgeendline]") (str "c[bridgeendline]") = str "c" := by
    rw [show str "c[bridgeendline]" = str "c" ++ str "[bridgeendline]" from by decide]
    exact eraseAll_clean_endl (str "c") (by decide)
  have h := (c5_multichunk_call ⟨[], [(str "f", 7)], [], false, false⟩ 7
    (str "f") (str "42") (str "a") (str "c[bridgeendline]") [str "b"]
    (by decide) (by decide) (by decide)
    (by
      intro c hc
      simp only [List.mem_singleton] at hc
      subst hc
      decide)
    (by decide)).1
  rw [hce] at h
  exact h

/-- C4 counterexample: the round trip fails as universally stated over all
payloads: for the channel-delivery shape with channel `a]_end_nameb` (which
contains the `]_end_name` delimiter), decoding the encoded record yields
channel `a` and payload `b]_end_namev`, not the original event. -/
theorem c4_counterexample :
    decodeEvent (encodeIn (.delivery (str "a]_end_nameb") (str "v"))) =
      .ok (some (.delivery (str "a") (str "b]_end_namev")))
    ∧ decodeEvent (encodeIn (.delivery (str "a]_end_nameb") (str "v"))) ≠
      .ok (some (.delivery (str "a]_end_nameb") (str "v"))) := by
  decide

/-- C4 (amended): `decode(encode(e)) = e` holds for every event shape of §6
provided the bracket-delimited variable fields (channel and function names,
call ids, argument chunks) contain none of the delimiter characters `[`,
`]`, `_`, and a non-final first chunk is not literally `noarg`; free-tail
fields (delivery payload, send data, response result, registered name) are
unrestricted.  Incoming shapes are decoded by the source decoder from the
spec-modelled peer encoding; outgoing shapes are encoded by the source and
decoded by the spec-modelled peer decoder.  With unrestricted fields the
round trip fails (`c4_counterexample`). -/
theorem c4_roundtrip_clean_fields (c v n i a ch r : List Char)
    (hc : cleanL c = true) (hn : cleanL n = true) (hi : cleanL i = true)
    (ha : cleanL a = true) (hch : cleanL ch = true)
    (hna : a ≠ str "noarg") :
    decodeEvent (encodeIn (.delivery c v)) = .ok (some (.delivery c v))
    ∧ decodeEvent (encodeIn (.invokeNoArg n i)) = .ok (some (.invokeNoArg n i))
    ∧ decodeEvent (encodeIn (.invokeSingle n i a)) = .ok (some (.invokeSingle n i a))
    ∧ decodeEvent (encodeIn (.invokeFirst n i a)) = .ok (some (.invokeFirst n i a))
    ∧ decodeEvent (encodeIn (.paramChunk i ch true)) = .ok (some (.paramChunk i ch true))
    ∧ decodeEvent (encodeIn (.paramChunk i ch false)) = .ok (some (.paramChunk i ch false))
    ∧ decodeEvent (encodeIn .exitEv) = .ok (some .exitEv)
    ∧ peerDecodeOut (encodeOut (.chanSend c v)) = some (.chanSend c v)
    ∧ peerDecodeOut (encodeOut (.fnRegistered n)) = some (.fnRegistered n)
    ∧ peerDecodeOut (encodeOut (.fnResponse i r)) = some (.fnResponse i r)
    ∧ peerDecodeOut (encodeOut .closeEv) = some .closeEv :=
  ⟨decodeEvent_delivery c v hc, decodeEvent_invokeNoArg n i hn hi,
   decodeEvent_invokeSingle n i a hn hi ha,
   decodeEvent_invokeFirst n i a hn hi ha hna,
   decodeEvent_paramFinal i ch hi hch, decodeEvent_paramChunk i ch hi hch,
   decodeEvent_exit, peerDecodeOut_chanSend c v hc, peerDecodeOut_fnRegistered n,
   peerDecodeOut_fnResponse i r hi, peerDecodeOut_close⟩

theorem c4_witness :
    decodeEvent (encodeIn (.delivery (str "chan") (str "hello"))) =
      .ok (some (.delivery (str "chan") (str "hello")))
    ∧ peerDecodeOut (encodeOut (.fnResponse (str "42") (str "30"))) =
      some (.fnResponse (str "42") (str "30")) :=
  ⟨(c4_roundtrip_clean_fields (str "chan") (str "hello") (str "add") (str "42")
      (str "xy") (str "zz") (str "30") (by decide) (by decide) (by decide)
      (by decide) (by decide) (by decide)).1,
    (c4_roundtrip_clean_fields (str "chan") (str "hello") (str "add") (str "42")
      (str "xy") (str "zz") (str "30") (by decide) (by decide) (by decide)
      (by decide) (by decide) (by decide)).2.2.2.2.2.2.2.2.2.1⟩

end NodeBridge
